import Mathlib

/-!
Document gap analysis of `server.js`.

A shallow embedding of `statusLabel` and `buildGaps` (src/server.js, lines 373-414)
and of the place where the route `GET /buildings/:id` assembles the argument of
`buildGaps` (lines 492-515).

Modelling decisions.

* A row of the `documents` table is a `Doc`. `year` is `INTEGER NOT NULL`; it is an
  `Int` here: on integers of the size of a calendar year the JavaScript comparison
  `>` and the subtraction are exact.
* A JavaScript object whose properties are all own, enumerable and string-keyed is
  the list of its properties in creation order (`JsObject`); its keys are pairwise
  distinct (`JsObject.WellFormed`). `Object.entries` is `objectEntries`: properties
  whose key is an array index come first, in ascending numeric order, then the
  other properties in creation order.
* `new Date()` reads the host clock. The value it yields at the time of the call is
  an explicit argument `now : JsDate` of `buildGaps`; `getFullYear` is a field of it.
* `String.prototype.toUpperCase` is a built-in of the host. It is an argument
  `toUpperCase : String → String` of `buildGaps`; nothing is assumed about it.
  `upperAscii` is used to evaluate `buildGaps` on ASCII type names only.
* A call `buildGaps(documentsByType, referenceYear)` is `callBuildGaps`: the function
  declares one parameter (line 380) and never reads `arguments`, so what is passed
  after the mapping is bound to no name.
* `specEvaluate` is the operation `evaluate` of the specification (section 4.1),
  written from its words, with the reference year as a parameter; `buildGaps` is
  compared with it.
-/

namespace Archives

/-- A row of the table `documents` (`SELECT * FROM documents`). -/
structure Doc where
  id : Nat
  filename : String
  document_type : String
  building_id : Nat
  status : String
  year : Int
  uploaded_at : String
  file_url : String
  deriving DecidableEq, Repr

/-- An element of `gapMessages`: the object literal `{ type, message, severity }`. -/
structure Finding where
  type : String
  message : String
  severity : String
  deriving DecidableEq, Repr

/-- The local calendar fields of the value `new Date()` yields when it is evaluated. -/
structure JsDate where
  fullYear : Int
  month : Nat
  date : Nat
  deriving DecidableEq, Repr

/-- Method `Date.prototype.getFullYear`. -/
def JsDate.getFullYear (d : JsDate) : Int := d.fullYear

/-- An object with own enumerable string-keyed properties, in creation order. -/
abbrev JsObject := List (String × List Doc)

/-- The keys of an object are pairwise distinct. -/
def JsObject.WellFormed (o : JsObject) : Prop := (o.map Prod.fst).Nodup

instance (o : JsObject) : Decidable (JsObject.WellFormed o) := by
  unfold JsObject.WellFormed; infer_instance

/-- The number a list of decimal digits denotes. -/
def digitsValue (cs : List Char) : Nat :=
  cs.foldl (fun n c => n * 10 + (c.toNat - 48)) 0

/-- A property key is an array index when it is the canonical decimal form of an
integer between 0 and 2^32 - 2. -/
def isArrayIndex (p : String) : Bool :=
  match p.data with
  | [] => false
  | c :: cs =>
    (c :: cs).all Char.isDigit && (c != '0' || cs.isEmpty)
      && decide (digitsValue (c :: cs) < 4294967295)

/-- The numeric value of a key that is an array index. -/
def arrayIndexValue (p : String) : Nat := digitsValue p.data

/-- Function `Object.entries` on an ordinary object (OrdinaryOwnPropertyKeys):
array-index keys in ascending numeric order, then the other
keys in creation order. -/
def objectEntries (o : JsObject) : List (String × List Doc) :=
  List.insertionSort (fun a b => arrayIndexValue a.1 ≤ arrayIndexValue b.1)
      (o.filter (fun e => isArrayIndex e.1))
    ++ o.filter (fun e => !isArrayIndex e.1)

/-- Function `statusLabel` (server.js 373-378). -/
def statusLabel (status : String) : String :=
  if status = "gällande" then "✅ Gällande"
  else if status = "osäker" then "⚠️ Osäker"
  else if status = "ersatt" then "❌ Ersatt"
  else status

/-- The reducer of line 394: `(acc, doc) => (doc.year > acc.year ? doc : acc)`. -/
def later (acc doc : Doc) : Doc := if doc.year > acc.year then doc else acc

/-- The value of `latest` (line 394): `docs.reduce(reducer, docs[0])`, where `init`
is `docs[0]`. -/
def latest (docs : List Doc) (init : Doc) : Doc := docs.foldl later init

/-- The finding pushed at lines 386-390. -/
def missingFinding (toUpperCase : String → String) (type : String) : Finding :=
  { type := type, message := toUpperCase type ++ " saknas", severity := "missing" }

/-- The finding pushed at lines 396-400. -/
def staleFinding (toUpperCase : String → String) (type : String) : Finding :=
  { type := type, message := "Senaste " ++ toUpperCase type ++ " är äldre än 5 år",
    severity := "stale" }

/-- The finding pushed at lines 405-409. -/
def uncertainFinding (toUpperCase : String → String) (type : String) : Finding :=
  { type := type,
    message := "Flera " ++ toUpperCase type ++ " – osäkert vilken som gäller",
    severity := "uncertain" }

/-- One iteration of the loop of `buildGaps` (lines 385-410): the value of
`gapMessages` after the iteration for the entry `[type, docs]`. -/
def loopBody (toUpperCase : String → String) (currentYear : Int)
    (gapMessages : List Finding) (type : String) (docs : List Doc) : List Finding :=
  match docs with
  | [] => gapMessages ++ [missingFinding toUpperCase type]
  | d0 :: _ =>
    let latestDoc := latest docs d0
    let gapMessages1 :=
      if currentYear - latestDoc.year ≥ 5 then
        gapMessages ++ [staleFinding toUpperCase type]
      else gapMessages
    let uncertain := docs.any (fun doc => doc.status == "osäker")
    if uncertain && decide (docs.length > 1) then
      gapMessages1 ++ [uncertainFinding toUpperCase type]
    else gapMessages1

/-- Function `buildGaps` (server.js 380-414); `now` is what `new Date()` yields at line 381. -/
def buildGaps (toUpperCase : String → String) (now : JsDate)
    (documentsByType : JsObject) : List Finding :=
  let currentYear := now.getFullYear
  (objectEntries documentsByType).foldl
    (fun gapMessages entry => loopBody toUpperCase currentYear gapMessages entry.1 entry.2)
    []

/-- The object the route `GET /buildings/:id` passes to `buildGaps` (lines 492-513):
the four keys are created in this order and then assigned the query results. -/
def documentsByType (ritning OVK brandskydd service : List Doc) : JsObject :=
  [("ritning", ritning), ("OVK", OVK), ("brandskydd", brandskydd), ("service", service)]

/-- Upper-casing of the letters a-z; it agrees with `toUpperCase` on ASCII strings. -/
def upperAscii (s : String) : String := ⟨s.data.map Char.toUpper⟩

/-- The findings of a list whose `type` is `t`. -/
def findingsOfType (t : String) (gaps : List Finding) : List Finding :=
  gaps.filter (fun g => g.type == t)

/-- The findings one type contributes: the loop body run on an empty `gapMessages`. -/
def typeFindings (toUpperCase : String → String) (currentYear : Int)
    (type : String) (docs : List Doc) : List Finding :=
  loopBody toUpperCase currentYear [] type docs

/-- A document with the given year and status, the other columns fixed. -/
def mkDoc (id : Nat) (year : Int) (status : String) : Doc :=
  { id := id, filename := "f.pdf", document_type := "t", building_id := 1,
    status := status, year := year, uploaded_at := "", file_url := "/docs/f.pdf" }

/-- A call `buildGaps(documentsByType, ...rest)`. Line 380 declares the single
parameter `documentsByType` and the body never reads `arguments`: the values passed
after the mapping, such as a reference year, are bound to no name, and the body of
`buildGaps` runs with the clock reading `now`. -/
def callBuildGaps (toUpperCase : String → String) (now : JsDate)
    (documentsByType : JsObject) (_rest : List Int) : List Finding :=
  buildGaps toUpperCase now documentsByType

/-- The maximum year of the non-empty list `d :: ds`. -/
def maxYear (d : Doc) (ds : List Doc) : Int :=
  ds.foldr (fun x acc => max x.year acc) d.year

/-- Specification 4.1, `evaluate(documentType, documents, referenceYear)`, in the
specification's words: an empty list gives the missing finding and nothing else;
otherwise the stale finding when `referenceYear - (maximum year) >= 5`, followed by
the uncertain finding when there is more than one document and at least one has the
uncertain status. -/
def specEvaluate (toUpperCase : String → String) (documentType : String)
    (documents : List Doc) (referenceYear : Int) : List Finding :=
  match documents with
  | [] =>
    [{ type := documentType, message := toUpperCase documentType ++ " saknas",
       severity := "missing" }]
  | d :: ds =>
    (if referenceYear - maxYear d ds ≥ 5 then
      [{ type := documentType,
         message := "Senaste " ++ toUpperCase documentType ++ " är äldre än 5 år",
         severity := "stale" }]
     else [])
    ++ (if 1 < (d :: ds).length ∧ ∃ x ∈ d :: ds, x.status = "osäker" then
      [{ type := documentType,
         message := "Flera " ++ toUpperCase documentType ++ " – osäkert vilken som gäller",
         severity := "uncertain" }]
     else [])

/-! ## The loop as a concatenation -/

theorem loopBody_eq_append (up : String → String) (y : Int) (acc : List Finding)
    (t : String) (docs : List Doc) :
    loopBody up y acc t docs = acc ++ typeFindings up y t docs := by
  cases docs with
  | nil => simp [typeFindings, loopBody]
  | cons d0 rest =>
    simp only [typeFindings, loopBody]
    split_ifs <;> simp

theorem foldl_loopBody (up : String → String) (y : Int) (es : List (String × List Doc))
    (acc : List Finding) :
    es.foldl (fun gapMessages entry => loopBody up y gapMessages entry.1 entry.2) acc
      = acc ++ es.flatMap (fun e => typeFindings up y e.1 e.2) := by
  induction es generalizing acc with
  | nil => simp
  | cons e es ih =>
    rw [List.foldl_cons, ih, loopBody_eq_append, List.flatMap_cons, List.append_assoc]

theorem buildGaps_eq_flatMap (up : String → String) (now : JsDate) (m : JsObject) :
    buildGaps up now m
      = (objectEntries m).flatMap (fun e => typeFindings up now.getFullYear e.1 e.2) := by
  simp [buildGaps, foldl_loopBody]

/-! ## `Object.entries` -/

theorem objectEntries_perm (m : JsObject) : (objectEntries m).Perm m := by
  unfold objectEntries
  exact ((List.perm_insertionSort _ _).append_right _).trans (List.filter_append_perm _ m)

theorem objectEntries_eq_self (m : JsObject) (h : ∀ e ∈ m, isArrayIndex e.1 = false) :
    objectEntries m = m := by
  unfold objectEntries
  have h1 : m.filter (fun e => isArrayIndex e.1) = [] := by
    rw [List.filter_eq_nil_iff]
    intro e he
    simp [h e he]
  have h2 : m.filter (fun e => !isArrayIndex e.1) = m := by
    rw [List.filter_eq_self]
    intro e he
    simp [h e he]
  rw [h1, h2]
  simp

theorem mem_objectEntries (m : JsObject) (e : String × List Doc) :
    e ∈ objectEntries m ↔ e ∈ m :=
  (objectEntries_perm m).mem_iff

theorem objectEntries_wellFormed (m : JsObject) (h : JsObject.WellFormed m) :
    ((objectEntries m).map Prod.fst).Nodup :=
  (((objectEntries_perm m).map Prod.fst).nodup_iff).2 h

/-! ## The findings of one type -/

theorem typeFindings_nil (up : String → String) (y : Int) (t : String) :
    typeFindings up y t [] = [missingFinding up t] := by
  simp [typeFindings, loopBody]

theorem typeFindings_cons (up : String → String) (y : Int) (t : String)
    (d0 : Doc) (rest : List Doc) :
    typeFindings up y t (d0 :: rest)
      = (if y - (latest (d0 :: rest) d0).year ≥ 5 then [staleFinding up t] else [])
        ++ (if (d0 :: rest).any (fun doc => doc.status == "osäker")
              && decide ((d0 :: rest).length > 1)
            then [uncertainFinding up t] else []) := by
  simp only [typeFindings, loopBody]
  split_ifs <;> simp

theorem typeFindings_type (up : String → String) (y : Int) (t : String) (docs : List Doc)
    (g : Finding) (hg : g ∈ typeFindings up y t docs) : g.type = t := by
  cases docs with
  | nil =>
    rw [typeFindings_nil] at hg
    simp at hg
    simp [hg, missingFinding]
  | cons d0 rest =>
    rw [typeFindings_cons] at hg
    rw [List.mem_append] at hg
    rcases hg with hg | hg
    · split_ifs at hg
      · simp at hg; simp [hg, staleFinding]
      · simp at hg
    · split_ifs at hg
      · simp at hg; simp [hg, uncertainFinding]
      · simp at hg

theorem findingsOfType_typeFindings_self (up : String → String) (y : Int) (t : String)
    (docs : List Doc) :
    findingsOfType t (typeFindings up y t docs) = typeFindings up y t docs := by
  unfold findingsOfType
  rw [List.filter_eq_self]
  intro g hg
  simp [typeFindings_type up y t docs g hg]

theorem findingsOfType_typeFindings_ne (up : String → String) (y : Int) (t k : String)
    (docs : List Doc) (hk : k ≠ t) :
    findingsOfType t (typeFindings up y k docs) = [] := by
  unfold findingsOfType
  rw [List.filter_eq_nil_iff]
  intro g hg
  simp [typeFindings_type up y k docs g hg, hk]

theorem findingsOfType_flatMap (up : String → String) (y : Int) (t : String)
    (docs : List Doc) (es : List (String × List Doc))
    (hnd : (es.map Prod.fst).Nodup) (hmem : (t, docs) ∈ es) :
    findingsOfType t (es.flatMap (fun e => typeFindings up y e.1 e.2))
      = typeFindings up y t docs := by
  induction es with
  | nil => simp at hmem
  | cons e es ih =>
    rw [List.map_cons, List.nodup_cons] at hnd
    have hsplit : findingsOfType t ((e :: es).flatMap (fun e => typeFindings up y e.1 e.2))
        = findingsOfType t (typeFindings up y e.1 e.2)
          ++ findingsOfType t (es.flatMap (fun e => typeFindings up y e.1 e.2)) := by
      simp [findingsOfType]
    rw [hsplit]
    rcases List.mem_cons.1 hmem with heq | hin
    · subst heq
      have hrest : findingsOfType t (es.flatMap (fun e => typeFindings up y e.1 e.2)) = [] := by
        unfold findingsOfType
        rw [List.filter_eq_nil_iff]
        intro g hg
        rcases List.mem_flatMap.1 hg with ⟨e', he', hge'⟩
        have hty := typeFindings_type up y e'.1 e'.2 g hge'
        have hne : e'.1 ≠ t := by
          intro hc
          exact hnd.1 (List.mem_map.2 ⟨e', he', hc⟩)
        simp [hty, hne]
      rw [hrest, findingsOfType_typeFindings_self]
      simp
    · have hne : e.1 ≠ t := by
        intro hc
        exact hnd.1 (List.mem_map.2 ⟨(t, docs), hin, hc.symm⟩)
      rw [findingsOfType_typeFindings_ne up y t e.1 e.2 hne, ih hnd.2 hin]
      simp

theorem findingsOfType_buildGaps (up : String → String) (now : JsDate) (m : JsObject)
    (hm : JsObject.WellFormed m) (t : String) (docs : List Doc) (h : (t, docs) ∈ m) :
    findingsOfType t (buildGaps up now m) = typeFindings up now.getFullYear t docs := by
  rw [buildGaps_eq_flatMap]
  exact findingsOfType_flatMap up _ t docs _ (objectEntries_wellFormed m hm)
    ((mem_objectEntries m _).2 h)

/-! ## The reduce of line 394 -/

theorem latest_cons_self (d0 : Doc) (rest : List Doc) :
    latest (d0 :: rest) d0 = latest rest d0 := by
  simp [latest, later]

theorem latest_first (docs : List Doc) (init : Doc) :
    (latest docs init = init ∧ ∀ d ∈ docs, d.year ≤ init.year) ∨
    (∃ pre post, docs = pre ++ latest docs init :: post
        ∧ (∀ x ∈ pre, x.year < (latest docs init).year)
        ∧ init.year < (latest docs init).year
        ∧ ∀ x ∈ post, x.year ≤ (latest docs init).year) := by
  induction docs generalizing init with
  | nil => left; simp [latest]
  | cons d ds ih =>
    have hstep : latest (d :: ds) init = latest ds (later init d) := by simp [latest]
    rw [hstep]
    by_cases hgt : d.year > init.year
    · have hl : later init d = d := by simp [later, hgt]
      rw [hl]
      rcases ih d with ⟨heq, hall⟩ | ⟨pre, post, hdec, hpre, hinit, hpost⟩
      · right
        refine ⟨[], ds, ?_, ?_, ?_, ?_⟩
        · simp [heq]
        · simp
        · rw [heq]; exact hgt
        · rw [heq]; exact hall
      · right
        refine ⟨d :: pre, post, ?_, ?_, ?_, hpost⟩
        · rw [List.cons_append, ← hdec]
        · intro x hx
          rcases List.mem_cons.1 hx with rfl | hx
          · exact hinit
          · exact hpre x hx
        · omega
    · have hl : later init d = init := by simp [later, hgt]
      rw [hl]
      rcases ih init with ⟨heq, hall⟩ | ⟨pre, post, hdec, hpre, hinit, hpost⟩
      · left
        refine ⟨heq, ?_⟩
        intro x hx
        rcases List.mem_cons.1 hx with rfl | hx
        · omega
        · exact hall x hx
      · right
        refine ⟨d :: pre, post, ?_, ?_, hinit, hpost⟩
        · rw [List.cons_append, ← hdec]
        · intro x hx
          rcases List.mem_cons.1 hx with rfl | hx
          · omega
          · exact hpre x hx

theorem latest_decomposition (d0 : Doc) (rest : List Doc) :
    ∃ pre post, d0 :: rest = pre ++ latest (d0 :: rest) d0 :: post
      ∧ (∀ x ∈ pre, x.year < (latest (d0 :: rest) d0).year)
      ∧ (∀ x ∈ post, x.year ≤ (latest (d0 :: rest) d0).year) := by
  rw [latest_cons_self]
  rcases latest_first rest d0 with ⟨heq, hall⟩ | ⟨pre, post, hdec, hpre, hinit, hpost⟩
  · refine ⟨[], rest, ?_, ?_, ?_⟩
    · simp [heq]
    · simp
    · rw [heq]; exact hall
  · refine ⟨d0 :: pre, post, ?_, ?_, hpost⟩
    · rw [List.cons_append, ← hdec]
    · intro x hx
      rcases List.mem_cons.1 hx with rfl | hx
      · exact hinit
      · exact hpre x hx

theorem latest_mem (d0 : Doc) (rest : List Doc) :
    latest (d0 :: rest) d0 ∈ d0 :: rest := by
  obtain ⟨pre, post, hdec, _, _⟩ := latest_decomposition d0 rest
  generalize latest (d0 :: rest) d0 = r at hdec ⊢
  rw [hdec]
  simp

theorem latest_year_ge (d0 : Doc) (rest : List Doc) (d : Doc) (hd : d ∈ d0 :: rest) :
    d.year ≤ (latest (d0 :: rest) d0).year := by
  obtain ⟨pre, post, hdec, hpre, hpost⟩ := latest_decomposition d0 rest
  generalize latest (d0 :: rest) d0 = r at hdec hpre hpost ⊢
  rw [hdec] at hd
  rcases List.mem_append.1 hd with h | h
  · exact le_of_lt (hpre d h)
  · rcases List.mem_cons.1 h with h | h
    · rw [h]
    · exact hpost d h

theorem latest_year_eq_max (d0 : Doc) (rest : List Doc) (y : Int)
    (hy : ∃ d ∈ d0 :: rest, d.year = y) (hmax : ∀ d ∈ d0 :: rest, d.year ≤ y) :
    (latest (d0 :: rest) d0).year = y := by
  obtain ⟨d, hd, hdy⟩ := hy
  have h1 := latest_year_ge d0 rest d hd
  have h2 := hmax _ (latest_mem d0 rest)
  omega

/-! ## Findings of a given severity -/

theorem exists_buildGaps_iff (up : String → String) (now : JsDate) (m : JsObject)
    (hm : JsObject.WellFormed m) (t : String) (docs : List Doc) (h : (t, docs) ∈ m)
    (P : Finding → Prop) :
    (∃ g ∈ buildGaps up now m, g.type = t ∧ P g)
      ↔ ∃ g ∈ typeFindings up now.getFullYear t docs, P g := by
  rw [← findingsOfType_buildGaps up now m hm t docs h]
  unfold findingsOfType
  constructor
  · rintro ⟨g, hg, hty, hP⟩
    exact ⟨g, List.mem_filter.2 ⟨hg, by simp [hty]⟩, hP⟩
  · rintro ⟨g, hg, hP⟩
    rcases List.mem_filter.1 hg with ⟨hg1, hg2⟩
    exact ⟨g, hg1, by simpa using hg2, hP⟩

theorem stale_mem_iff (a b : Prop) [Decidable a] [Decidable b] (up : String → String)
    (t : String) :
    (∃ g ∈ (if a then [staleFinding up t] else [])
        ++ (if b then [uncertainFinding up t] else []), g.severity = "stale") ↔ a := by
  by_cases ha : a <;> by_cases hb : b <;> simp [ha, hb, staleFinding, uncertainFinding]

theorem uncertain_mem_iff (a b : Prop) [Decidable a] [Decidable b] (up : String → String)
    (t : String) :
    (∃ g ∈ (if a then [staleFinding up t] else [])
        ++ (if b then [uncertainFinding up t] else []), g.severity = "uncertain") ↔ b := by
  by_cases ha : a <;> by_cases hb : b <;> simp [ha, hb, staleFinding, uncertainFinding]

theorem uncertain_cond_iff (docs : List Doc) :
    (docs.any (fun doc => doc.status == "osäker") && decide (docs.length > 1)) = true
      ↔ (1 < docs.length ∧ ∃ d ∈ docs, d.status = "osäker") := by
  simp [List.any_eq_true, and_comm]

theorem typeFindings_of_max (up : String → String) (cy : Int) (t : String)
    (docs : List Doc) (y : Int) (hy : ∃ d ∈ docs, d.year = y)
    (hmax : ∀ d ∈ docs, d.year ≤ y) :
    typeFindings up cy t docs
      = (if y ≤ cy - 5 then [staleFinding up t] else [])
        ++ (if 1 < docs.length ∧ ∃ d ∈ docs, d.status = "osäker"
            then [uncertainFinding up t] else []) := by
  cases docs with
  | nil => simp at hy
  | cons d0 rest =>
    rw [typeFindings_cons, latest_year_eq_max d0 rest y hy hmax]
    have h1 : (cy - y ≥ 5) ↔ (y ≤ cy - 5) := by omega
    have h2 := uncertain_cond_iff (d0 :: rest)
    congr 1
    · simp only [h1]
    · simp only [h2]

theorem typeFindings_perm (up : String → String) (cy : Int) (t : String)
    (docs docs' : List Doc) (hp : docs.Perm docs') :
    typeFindings up cy t docs = typeFindings up cy t docs' := by
  cases docs with
  | nil => rw [List.nil_perm.1 hp]
  | cons d0 rest =>
    have hy : ∃ d ∈ d0 :: rest, d.year = (latest (d0 :: rest) d0).year :=
      ⟨_, latest_mem d0 rest, rfl⟩
    have hmax := latest_year_ge d0 rest
    have hy' : ∃ d ∈ docs', d.year = (latest (d0 :: rest) d0).year :=
      ⟨_, hp.mem_iff.1 (latest_mem d0 rest), rfl⟩
    have hmax' : ∀ d ∈ docs', d.year ≤ (latest (d0 :: rest) d0).year :=
      fun d hd => hmax d (hp.mem_iff.2 hd)
    rw [typeFindings_of_max up cy t _ _ hy hmax, typeFindings_of_max up cy t _ _ hy' hmax']
    have hc : (1 < (d0 :: rest).length ∧ ∃ d ∈ d0 :: rest, d.status = "osäker")
        ↔ (1 < docs'.length ∧ ∃ d ∈ docs', d.status = "osäker") := by
      rw [hp.length_eq]
      constructor
      · rintro ⟨hl, d, hd, hs⟩
        exact ⟨hl, d, hp.mem_iff.1 hd, hs⟩
      · rintro ⟨hl, d, hd, hs⟩
        exact ⟨hl, d, hp.mem_iff.2 hd, hs⟩
    simp only [hc]

/-! ## The loop body against the specification's `evaluate` -/

theorem maxYear_mem (d : Doc) (ds : List Doc) : ∃ x ∈ d :: ds, x.year = maxYear d ds := by
  induction ds with
  | nil => exact ⟨d, by simp, rfl⟩
  | cons e es ih =>
    obtain ⟨x, hx, hxy⟩ := ih
    have hstep : maxYear d (e :: es) = max e.year (maxYear d es) := rfl
    rw [hstep]
    rcases le_total e.year (maxYear d es) with hle | hle
    · rw [max_eq_right hle]
      refine ⟨x, ?_, hxy⟩
      rcases List.mem_cons.1 hx with hx | hx
      · simp [hx]
      · simp [hx]
    · rw [max_eq_left hle]
      exact ⟨e, by simp, rfl⟩

theorem maxYear_ge (d : Doc) (ds : List Doc) : ∀ x ∈ d :: ds, x.year ≤ maxYear d ds := by
  induction ds with
  | nil =>
    intro x hx
    simp at hx
    subst hx
    exact le_refl _
  | cons e es ih =>
    have hstep : maxYear d (e :: es) = max e.year (maxYear d es) := rfl
    intro x hx
    rw [hstep]
    rcases List.mem_cons.1 hx with hx | hx
    · subst hx
      exact le_trans (ih x (by simp)) (le_max_right _ _)
    · rcases List.mem_cons.1 hx with hx | hx
      · subst hx
        exact le_max_left _ _
      · exact le_trans (ih x (by simp [hx])) (le_max_right _ _)

theorem typeFindings_eq_specEvaluate (up : String → String) (cy : Int) (t : String)
    (docs : List Doc) :
    typeFindings up cy t docs = specEvaluate up t docs cy := by
  cases docs with
  | nil => rw [typeFindings_nil]; rfl
  | cons d ds =>
    rw [typeFindings_of_max up cy t (d :: ds) (maxYear d ds) (maxYear_mem d ds)
      (maxYear_ge d ds)]
    have h1 : (maxYear d ds ≤ cy - 5) ↔ (cy - maxYear d ds ≥ 5) := by omega
    simp only [specEvaluate, staleFinding, uncertainFinding, h1]

/-! ## Scenarios of the specification, evaluated -/

theorem scenario_A :
    findingsOfType "ritning" (buildGaps upperAscii ⟨2024, 10, 4⟩
      (documentsByType [mkDoc 1 2021 "gällande"] [] [] [])) = [] := by
  decide

theorem scenario_B :
    findingsOfType "OVK" (buildGaps upperAscii ⟨2024, 10, 4⟩
      (documentsByType [mkDoc 1 2021 "gällande"] [] [] []))
      = [{ type := "OVK", message := "OVK saknas", severity := "missing" }] := by
  decide

theorem scenario_C :
    findingsOfType "brandskydd" (buildGaps upperAscii ⟨2024, 10, 4⟩
      (documentsByType [] [] [mkDoc 1 2019 "osäker", mkDoc 2 2021 "gällande"] []))
      = [{ type := "brandskydd",
           message := "Flera BRANDSKYDD – osäkert vilken som gäller",
           severity := "uncertain" }] := by
  decide

theorem scenario_D :
    findingsOfType "service" (buildGaps upperAscii ⟨2024, 10, 4⟩
      (documentsByType [] [] [] [mkDoc 1 2014 "gällande"]))
      = [{ type := "service", message := "Senaste SERVICE är äldre än 5 år",
           severity := "stale" }] := by
  decide

theorem scenario_E :
    findingsOfType "OVK" (buildGaps upperAscii ⟨2024, 10, 4⟩
      (documentsByType [] [mkDoc 1 2024 "gällande", mkDoc 2 2024 "osäker"] [] []))
      = [{ type := "OVK", message := "Flera OVK – osäkert vilken som gäller",
           severity := "uncertain" }] := by
  decide

theorem stale_boundary :
    findingsOfType "service" (buildGaps upperAscii ⟨2024, 10, 4⟩
        (documentsByType [] [] [] [mkDoc 1 2019 "gällande"]))
        = [{ type := "service", message := "Senaste SERVICE är äldre än 5 år",
             severity := "stale" }]
      ∧ findingsOfType "service" (buildGaps upperAscii ⟨2024, 10, 4⟩
        (documentsByType [] [] [] [mkDoc 1 2020 "gällande"])) = [] := by
  decide

theorem single_uncertain_document :
    findingsOfType "service" (buildGaps upperAscii ⟨2024, 10, 4⟩
      (documentsByType [] [] [] [mkDoc 1 2023 "osäker"])) = [] := by
  decide

theorem latest_tie_first :
    latest [mkDoc 1 2019 "ersatt", mkDoc 2 2021 "osäker", mkDoc 3 2021 "gällande"]
      (mkDoc 1 2019 "ersatt") = mkDoc 2 2021 "osäker" := by
  decide

/-! ## Claims -/

/-- C1: for a type whose document list is empty, the findings `buildGaps` returns for
that type are exactly one finding, of severity "missing" and message `<TYPE> saknas`,
and no finding of that type is stale or uncertain, whatever the year of the clock. -/
theorem buildGaps_empty_list_missing (up : String → String) (now : JsDate) (m : JsObject)
    (hm : JsObject.WellFormed m) (t : String) (h : (t, []) ∈ m) :
    findingsOfType t (buildGaps up now m)
        = [{ type := t, message := up t ++ " saknas", severity := "missing" }]
      ∧ ∀ g ∈ buildGaps up now m, g.type = t →
          g.severity ≠ "stale" ∧ g.severity ≠ "uncertain" := by
  have hf := findingsOfType_buildGaps up now m hm t [] h
  rw [typeFindings_nil] at hf
  refine ⟨hf, ?_⟩
  intro g hg hty
  have hmem : g ∈ findingsOfType t (buildGaps up now m) :=
    List.mem_filter.2 ⟨hg, by simp [hty]⟩
  rw [hf] at hmem
  simp at hmem
  subst hmem
  simp [missingFinding]

theorem buildGaps_empty_list_missing_witness :
    JsObject.WellFormed (documentsByType [mkDoc 1 2021 "gällande"] [] [] [])
      ∧ ("OVK", []) ∈ documentsByType [mkDoc 1 2021 "gällande"] [] [] []
      ∧ (findingsOfType "OVK" (buildGaps upperAscii ⟨2024, 10, 4⟩
            (documentsByType [mkDoc 1 2021 "gällande"] [] [] []))
          = [{ type := "OVK", message := upperAscii "OVK" ++ " saknas",
               severity := "missing" }]
        ∧ ∀ g ∈ buildGaps upperAscii ⟨2024, 10, 4⟩
              (documentsByType [mkDoc 1 2021 "gällande"] [] [] []),
            g.type = "OVK" → g.severity ≠ "stale" ∧ g.severity ≠ "uncertain") :=
  ⟨by decide, by decide,
    buildGaps_empty_list_missing upperAscii ⟨2024, 10, 4⟩
      (documentsByType [mkDoc 1 2021 "gällande"] [] [] []) (by decide) "OVK" (by decide)⟩

/-- C2: for a type with a non-empty document list whose maximum year is `y`,
`buildGaps` returns a finding of severity "stale" for that type if and only if
`y ≤ currentYear - 5`. -/
theorem buildGaps_stale_iff (up : String → String) (now : JsDate) (m : JsObject)
    (hm : JsObject.WellFormed m) (t : String) (docs : List Doc) (h : (t, docs) ∈ m)
    (y : Int) (hy : ∃ d ∈ docs, d.year = y) (hmax : ∀ d ∈ docs, d.year ≤ y) :
    (∃ g ∈ buildGaps up now m, g.type = t ∧ g.severity = "stale")
      ↔ y ≤ now.getFullYear - 5 := by
  rw [exists_buildGaps_iff up now m hm t docs h]
  cases docs with
  | nil => simp at hy
  | cons d0 rest =>
    rw [typeFindings_cons, stale_mem_iff, latest_year_eq_max d0 rest y hy hmax]
    omega

theorem buildGaps_stale_iff_witness :
    JsObject.WellFormed (documentsByType [] [] [] [mkDoc 1 2019 "gällande"])
      ∧ ("service", [mkDoc 1 2019 "gällande"])
          ∈ documentsByType [] [] [] [mkDoc 1 2019 "gällande"]
      ∧ (∃ d ∈ [mkDoc 1 2019 "gällande"], d.year = 2019)
      ∧ (∀ d ∈ [mkDoc 1 2019 "gällande"], d.year ≤ 2019)
      ∧ ((∃ g ∈ buildGaps upperAscii ⟨2024, 10, 4⟩
              (documentsByType [] [] [] [mkDoc 1 2019 "gällande"]),
            g.type = "service" ∧ g.severity = "stale")
          ↔ (2019 : Int) ≤ JsDate.getFullYear ⟨2024, 10, 4⟩ - 5) :=
  ⟨by decide, by decide, by decide, by decide,
    buildGaps_stale_iff upperAscii ⟨2024, 10, 4⟩
      (documentsByType [] [] [] [mkDoc 1 2019 "gällande"]) (by decide) "service"
      [mkDoc 1 2019 "gällande"] (by decide) 2019 (by decide) (by decide)⟩

/-- C3: `buildGaps` returns a finding of severity "uncertain" for a type if and only
if the type has more than one document and at least one of them has the status
"osäker". -/
theorem buildGaps_uncertain_iff (up : String → String) (now : JsDate) (m : JsObject)
    (hm : JsObject.WellFormed m) (t : String) (docs : List Doc) (h : (t, docs) ∈ m) :
    (∃ g ∈ buildGaps up now m, g.type = t ∧ g.severity = "uncertain")
      ↔ (1 < docs.length ∧ ∃ d ∈ docs, d.status = "osäker") := by
  rw [exists_buildGaps_iff up now m hm t docs h]
  cases docs with
  | nil => simp [typeFindings_nil, missingFinding]
  | cons d0 rest =>
    rw [typeFindings_cons, uncertain_mem_iff, uncertain_cond_iff]

theorem buildGaps_uncertain_iff_witness :
    JsObject.WellFormed
        (documentsByType [] [] [mkDoc 1 2019 "osäker", mkDoc 2 2021 "gällande"] [])
      ∧ ("brandskydd", [mkDoc 1 2019 "osäker", mkDoc 2 2021 "gällande"])
          ∈ documentsByType [] [] [mkDoc 1 2019 "osäker", mkDoc 2 2021 "gällande"] []
      ∧ ((∃ g ∈ buildGaps upperAscii ⟨2024, 10, 4⟩
              (documentsByType [] [] [mkDoc 1 2019 "osäker", mkDoc 2 2021 "gällande"] []),
            g.type = "brandskydd" ∧ g.severity = "uncertain")
          ↔ (1 < [mkDoc 1 2019 "osäker", mkDoc 2 2021 "gällande"].length
              ∧ ∃ d ∈ [mkDoc 1 2019 "osäker", mkDoc 2 2021 "gällande"],
                  d.status = "osäker")) :=
  ⟨by decide, by decide,
    buildGaps_uncertain_iff upperAscii ⟨2024, 10, 4⟩
      (documentsByType [] [] [mkDoc 1 2019 "osäker", mkDoc 2 2021 "gällande"] [])
      (by decide) "brandskydd" [mkDoc 1 2019 "osäker", mkDoc 2 2021 "gällande"]
      (by decide)⟩

/-- C9: the document the reduce of line 394 selects from a non-empty list has the
maximum year of the list, and it is the first document of the list with that year:
every document before it has a strictly smaller year. -/
theorem latest_is_first_of_maximum_year (d0 : Doc) (rest : List Doc) :
    (∀ d ∈ d0 :: rest, d.year ≤ (latest (d0 :: rest) d0).year)
      ∧ ∃ pre post, d0 :: rest = pre ++ latest (d0 :: rest) d0 :: post
          ∧ ∀ x ∈ pre, x.year < (latest (d0 :: rest) d0).year := by
  refine ⟨latest_year_ge d0 rest, ?_⟩
  obtain ⟨pre, post, hdec, hpre, _⟩ := latest_decomposition d0 rest
  exact ⟨pre, post, hdec, hpre⟩

/-- C6: for a type with a non-empty document list whose maximum year is `y`, the
findings of that type are the stale finding (present exactly when
`y ≤ currentYear - 5`) followed by the uncertain finding (present exactly when
there is more than one document and one of them is "osäker"); they are at most two,
none is "missing", and when both conditions hold they are exactly the stale finding
followed by the uncertain finding. -/
theorem buildGaps_nonempty_list_findings (up : String → String) (now : JsDate)
    (m : JsObject) (hm : JsObject.WellFormed m) (t : String) (docs : List Doc)
    (h : (t, docs) ∈ m) (y : Int) (hy : ∃ d ∈ docs, d.year = y)
    (hmax : ∀ d ∈ docs, d.year ≤ y) :
    findingsOfType t (buildGaps up now m)
        = (if y ≤ now.getFullYear - 5 then
            [{ type := t, message := "Senaste " ++ up t ++ " är äldre än 5 år",
               severity := "stale" }]
           else [])
          ++ (if 1 < docs.length ∧ ∃ d ∈ docs, d.status = "osäker" then
            [{ type := t, message := "Flera " ++ up t ++ " – osäkert vilken som gäller",
               severity := "uncertain" }]
           else [])
      ∧ (findingsOfType t (buildGaps up now m)).length ≤ 2
      ∧ (∀ g ∈ buildGaps up now m, g.type = t → g.severity ≠ "missing")
      ∧ (y ≤ now.getFullYear - 5 → 1 < docs.length → (∃ d ∈ docs, d.status = "osäker") →
          findingsOfType t (buildGaps up now m)
            = [{ type := t, message := "Senaste " ++ up t ++ " är äldre än 5 år",
                 severity := "stale" },
               { type := t, message := "Flera " ++ up t ++ " – osäkert vilken som gäller",
                 severity := "uncertain" }]) := by
  have hf := findingsOfType_buildGaps up now m hm t docs h
  rw [typeFindings_of_max up now.getFullYear t docs y hy hmax] at hf
  refine ⟨hf, ?_, ?_, ?_⟩
  · rw [hf]
    split_ifs <;> simp
  · intro g hg hty
    have hmem : g ∈ findingsOfType t (buildGaps up now m) :=
      List.mem_filter.2 ⟨hg, by simp [hty]⟩
    rw [hf] at hmem
    rcases List.mem_append.1 hmem with hg | hg
    · split_ifs at hg
      · simp at hg; subst hg; simp [staleFinding]
      · simp at hg
    · split_ifs at hg
      · simp at hg; subst hg; simp [uncertainFinding]
      · simp at hg
  · intro h1 h2 h3
    rw [hf, if_pos h1, if_pos ⟨h2, h3⟩]
    rfl

theorem buildGaps_nonempty_list_findings_witness :
    JsObject.WellFormed
        (documentsByType [] [mkDoc 1 2015 "gällande", mkDoc 2 2019 "osäker"] [] [])
      ∧ (∀ g ∈ buildGaps upperAscii ⟨2024, 10, 4⟩
            (documentsByType [] [mkDoc 1 2015 "gällande", mkDoc 2 2019 "osäker"] [] []),
          g.type = "OVK" → g.severity ≠ "missing")
      ∧ findingsOfType "OVK" (buildGaps upperAscii ⟨2024, 10, 4⟩
            (documentsByType [] [mkDoc 1 2015 "gällande", mkDoc 2 2019 "osäker"] [] []))
          = [{ type := "OVK", message := "Senaste OVK är äldre än 5 år",
               severity := "stale" },
             { type := "OVK", message := "Flera OVK – osäkert vilken som gäller",
               severity := "uncertain" }] :=
  have hw := buildGaps_nonempty_list_findings upperAscii ⟨2024, 10, 4⟩
    (documentsByType [] [mkDoc 1 2015 "gällande", mkDoc 2 2019 "osäker"] [] [])
    (by decide) "OVK" [mkDoc 1 2015 "gällande", mkDoc 2 2019 "osäker"] (by decide)
    2019 (by decide) (by decide)
  ⟨by decide, hw.2.2.1, hw.2.2.2 (by decide) (by decide) (by decide)⟩

/-- C10: when two well-formed mappings hold, for a type, document lists that are
permutations of each other, `buildGaps` returns the same findings for that type. -/
theorem buildGaps_perm_invariant (up : String → String) (now : JsDate)
    (m m' : JsObject) (hm : JsObject.WellFormed m) (hm' : JsObject.WellFormed m')
    (t : String) (docs docs' : List Doc) (h : (t, docs) ∈ m) (h' : (t, docs') ∈ m')
    (hp : docs.Perm docs') :
    findingsOfType t (buildGaps up now m) = findingsOfType t (buildGaps up now m') := by
  rw [findingsOfType_buildGaps up now m hm t docs h,
    findingsOfType_buildGaps up now m' hm' t docs' h']
  exact typeFindings_perm up _ t docs docs' hp

theorem buildGaps_perm_invariant_witness :
    [mkDoc 1 2014 "gällande", mkDoc 2 2019 "osäker"].Perm
        [mkDoc 2 2019 "osäker", mkDoc 1 2014 "gällande"]
      ∧ findingsOfType "ritning" (buildGaps upperAscii ⟨2024, 10, 4⟩
            (documentsByType [mkDoc 1 2014 "gällande", mkDoc 2 2019 "osäker"] [] [] []))
          = findingsOfType "ritning" (buildGaps upperAscii ⟨2024, 10, 4⟩
            (documentsByType [mkDoc 2 2019 "osäker", mkDoc 1 2014 "gällande"] [] [] [])) :=
  ⟨List.Perm.swap _ _ _,
    buildGaps_perm_invariant upperAscii ⟨2024, 10, 4⟩
      (documentsByType [mkDoc 1 2014 "gällande", mkDoc 2 2019 "osäker"] [] [] [])
      (documentsByType [mkDoc 2 2019 "osäker", mkDoc 1 2014 "gällande"] [] [] [])
      (by decide) (by decide) "ritning"
      [mkDoc 1 2014 "gällande", mkDoc 2 2019 "osäker"]
      [mkDoc 2 2019 "osäker", mkDoc 1 2014 "gällande"] (by decide) (by decide)
      (List.Perm.swap _ _ _)⟩

/-- C4 (as stated, refuted): with the keys "b" and "1" created in this order,
`buildGaps` reports "1" before "b", so its result is not the concatenation of the
per-type findings in the creation order of the keys. -/
theorem buildGaps_array_index_key_first :
    buildGaps upperAscii ⟨2024, 10, 4⟩ [("b", []), ("1", [])]
        = [{ type := "1", message := "1 saknas", severity := "missing" },
           { type := "b", message := "B saknas", severity := "missing" }]
      ∧ buildGaps upperAscii ⟨2024, 10, 4⟩ [("b", []), ("1", [])]
        ≠ List.flatMap [("b", []), ("1", [])]
            (fun e => typeFindings upperAscii 2024 e.1 e.2) := by
  decide

/-- C4 (amended): when no key of the mapping is an array index, the list `buildGaps`
returns is the concatenation, in the creation order of the keys, of the findings
computed for each type from that type's documents alone. -/
theorem buildGaps_eq_concat_in_insertion_order (up : String → String) (now : JsDate)
    (m : JsObject) (h : ∀ e ∈ m, isArrayIndex e.1 = false) :
    buildGaps up now m
      = m.flatMap (fun e => typeFindings up now.getFullYear e.1 e.2) := by
  rw [buildGaps_eq_flatMap, objectEntries_eq_self m h]

theorem buildGaps_eq_concat_in_insertion_order_witness :
    (∀ e ∈ documentsByType [mkDoc 1 2014 "gällande"] [] [mkDoc 2 2021 "gällande"] [],
        isArrayIndex e.1 = false)
      ∧ buildGaps upperAscii ⟨2024, 10, 4⟩
          (documentsByType [mkDoc 1 2014 "gällande"] [] [mkDoc 2 2021 "gällande"] [])
        = List.flatMap
            (documentsByType [mkDoc 1 2014 "gällande"] [] [mkDoc 2 2021 "gällande"] [])
            (fun e => typeFindings upperAscii (JsDate.getFullYear ⟨2024, 10, 4⟩) e.1 e.2) :=
  ⟨by decide,
    buildGaps_eq_concat_in_insertion_order upperAscii ⟨2024, 10, 4⟩
      (documentsByType [mkDoc 1 2014 "gällande"] [] [mkDoc 2 2021 "gällande"] [])
      (by decide)⟩

/-- C5 (as stated, refuted): called with a mapping that has no entry for "service",
`buildGaps` returns a list of findings, and the list has no finding for "service". -/
theorem buildGaps_skips_absent_required_type :
    buildGaps upperAscii ⟨2024, 10, 4⟩ [("ritning", []), ("OVK", []), ("brandskydd", [])]
        = [{ type := "ritning", message := "RITNING saknas", severity := "missing" },
           { type := "OVK", message := "OVK saknas", severity := "missing" },
           { type := "brandskydd", message := "BRANDSKYDD saknas", severity := "missing" }]
      ∧ findingsOfType "service" (buildGaps upperAscii ⟨2024, 10, 4⟩
          [("ritning", []), ("OVK", []), ("brandskydd", [])]) = [] := by
  decide

/-- C5 (amended): `buildGaps` evaluates the keys present in the mapping it is given:
a type that is not a key of the mapping contributes no finding to the list returned,
and the mapping the route `GET /buildings/:id` builds always has the four keys
ritning, OVK, brandskydd, service. -/
theorem buildGaps_absent_type_no_finding (up : String → String) (now : JsDate)
    (m : JsObject) (t : String) (h : t ∉ m.map Prod.fst) :
    (∀ g ∈ buildGaps up now m, g.type ≠ t)
      ∧ ∀ r o b s : List Doc,
          (documentsByType r o b s).map Prod.fst = ["ritning", "OVK", "brandskydd", "service"] := by
  refine ⟨?_, fun _ _ _ _ => rfl⟩
  intro g hg hty
  rw [buildGaps_eq_flatMap] at hg
  rcases List.mem_flatMap.1 hg with ⟨e, he, hge⟩
  have hk := typeFindings_type up _ e.1 e.2 g hge
  apply h
  rw [← hty, hk]
  exact List.mem_map_of_mem Prod.fst ((mem_objectEntries m e).1 he)

theorem buildGaps_absent_type_no_finding_witness :
    "service" ∉ List.map Prod.fst
        ([("ritning", []), ("OVK", [mkDoc 1 2020 "gällande"])] : JsObject)
      ∧ ∀ g ∈ buildGaps upperAscii ⟨2024, 10, 4⟩
          [("ritning", []), ("OVK", [mkDoc 1 2020 "gällande"])], g.type ≠ "service" :=
  ⟨by decide,
    (buildGaps_absent_type_no_finding upperAscii ⟨2024, 10, 4⟩
      [("ritning", []), ("OVK", [mkDoc 1 2020 "gällande"])] "service" (by decide)).1⟩

/-- C7: `statusLabel` maps "gällande", "osäker" and "ersatt" to their labels and
returns every other status unchanged. -/
theorem statusLabel_spec :
    statusLabel "gällande" = "✅ Gällande"
      ∧ statusLabel "osäker" = "⚠️ Osäker"
      ∧ statusLabel "ersatt" = "❌ Ersatt"
      ∧ ∀ status : String, status ≠ "gällande" → status ≠ "osäker" → status ≠ "ersatt" →
          statusLabel status = status := by
  refine ⟨by decide, by decide, by decide, ?_⟩
  intro status h1 h2 h3
  simp [statusLabel, h1, h2, h3]

theorem statusLabel_spec_witness :
    "arkiverad" ≠ "gällande" ∧ "arkiverad" ≠ "osäker" ∧ "arkiverad" ≠ "ersatt"
      ∧ statusLabel "arkiverad" = "arkiverad" :=
  ⟨by decide, by decide, by decide,
    statusLabel_spec.2.2.2 "arkiverad" (by decide) (by decide) (by decide)⟩

/-- C8 (as stated, refuted): two calls with the same mapping and the same reference
year 2024 passed as an argument, one when the clock reads 2024 and one when it reads
2019, return different lists: the first has the stale finding for the 2016 document,
the second has not. The year `buildGaps` uses is the clock's, not the one passed. -/
theorem callBuildGaps_same_inputs_different_findings :
    callBuildGaps upperAscii ⟨2024, 10, 4⟩
        (documentsByType [mkDoc 1 2016 "gällande"] [mkDoc 2 2018 "gällande"]
          [mkDoc 3 2018 "gällande"] [mkDoc 4 2018 "gällande"]) [2024]
        = [{ type := "ritning", message := "Senaste RITNING är äldre än 5 år",
             severity := "stale" },
           { type := "OVK", message := "Senaste OVK är äldre än 5 år",
             severity := "stale" },
           { type := "brandskydd", message := "Senaste BRANDSKYDD är äldre än 5 år",
             severity := "stale" },
           { type := "service", message := "Senaste SERVICE är äldre än 5 år",
             severity := "stale" }]
      ∧ callBuildGaps upperAscii ⟨2019, 10, 4⟩
        (documentsByType [mkDoc 1 2016 "gällande"] [mkDoc 2 2018 "gällande"]
          [mkDoc 3 2018 "gällande"] [mkDoc 4 2018 "gällande"]) [2024]
        = []
      ∧ callBuildGaps upperAscii ⟨2024, 10, 4⟩
        (documentsByType [mkDoc 1 2016 "gällande"] [mkDoc 2 2018 "gällande"]
          [mkDoc 3 2018 "gällande"] [mkDoc 4 2018 "gällande"]) [2024]
        ≠ callBuildGaps upperAscii ⟨2019, 10, 4⟩
        (documentsByType [mkDoc 1 2016 "gällande"] [mkDoc 2 2018 "gällande"]
          [mkDoc 3 2018 "gällande"] [mkDoc 4 2018 "gällande"]) [2024] := by
  decide

/-- C8 (amended): whatever is passed after the mapping, the list a call of `buildGaps`
returns is the concatenation, over `Object.entries` of the mapping, of the
specification's `evaluate` taken at the calendar year of the clock at the call; so
two calls with the same mapping at clock readings of the same year return the same
list, whatever reference year either of them is passed. -/
theorem callBuildGaps_evaluates_at_clock_year (up : String → String) (now now' : JsDate)
    (m : JsObject) (rest rest' : List Int) (h : now.getFullYear = now'.getFullYear) :
    callBuildGaps up now m rest
        = (objectEntries m).flatMap (fun e => specEvaluate up e.1 e.2 now.getFullYear)
      ∧ callBuildGaps up now m rest = callBuildGaps up now' m rest' := by
  have hcall : ∀ (d : JsDate) (r : List Int), callBuildGaps up d m r
      = (objectEntries m).flatMap (fun e => specEvaluate up e.1 e.2 d.getFullYear) := by
    intro d r
    unfold callBuildGaps
    rw [buildGaps_eq_flatMap]
    congr 1
    funext e
    exact typeFindings_eq_specEvaluate up d.getFullYear e.1 e.2
  refine ⟨hcall now rest, ?_⟩
  rw [hcall now rest, hcall now' rest', h]

theorem callBuildGaps_evaluates_at_clock_year_witness :
    JsDate.getFullYear ⟨2024, 0, 1⟩ = JsDate.getFullYear ⟨2024, 11, 31⟩
      ∧ callBuildGaps upperAscii ⟨2024, 0, 1⟩
          (documentsByType [mkDoc 1 2016 "gällande"] [] [] []) [2019]
        = List.flatMap (objectEntries (documentsByType [mkDoc 1 2016 "gällande"] [] [] []))
            (fun e => specEvaluate upperAscii e.1 e.2 (JsDate.getFullYear ⟨2024, 0, 1⟩))
      ∧ callBuildGaps upperAscii ⟨2024, 0, 1⟩
          (documentsByType [mkDoc 1 2016 "gällande"] [] [] []) [2019]
        = callBuildGaps upperAscii ⟨2024, 11, 31⟩
          (documentsByType [mkDoc 1 2016 "gällande"] [] [] []) [2030] :=
  ⟨rfl,
    callBuildGaps_evaluates_at_clock_year upperAscii ⟨2024, 0, 1⟩ ⟨2024, 11, 31⟩
      (documentsByType [mkDoc 1 2016 "gällande"] [] [] []) [2019] [2030] rfl⟩

end Archives
